import Mathlib

/-!
Shallow embedding of `src/lib.cpp` of the fastGHQuad repository
(Gauss–Hermite quadrature: Hermite polynomial recurrences, a direct
companion-matrix root-finding engine, and a Golub–Welsch engine).

Doubles are modelled as elements of an arbitrary `LinearOrderedField`
(instantiated with `ℚ` in concrete evaluations); the `long` workspace of
`hermitePolyCoef` is modelled with `ℤ`.  External LAPACK capabilities
(`dstevx`, `dgeev`) and the transcendental library functions
(`sqrt`, `exp`, `log`, `lgamma`, `pow`) are abstract parameters, exactly as
the spec's §9 prescribes for the eigen-decomposition dependency.
-/

section Defs

variable {α : Type} [LinearOrderedField α]

/-- Embedding of `hermitePoly(double x, int n)` (lib.cpp lines 285-313):
special cases for `n = 0` and `n = 1`, then the forward loop
`for (i = 2; i <= n; i++) hn = 2*x*hnm1 - 2*(i-1)*hnm2` on the state
`(hnm2, hnm1, hn)` initialised to `(1, 2x, 0)`.  For `n < 0` the loop body
never runs and the initial `hn = 0` is returned, as in the source. -/
def hermitePoly (x : α) (n : ℤ) : α :=
  if n = 0 then 1
  else if n = 1 then 2 * x
  else
    ((List.range' 2 ((n - 1).toNat)).foldl
      (fun s i =>
        (s.2.1, 2 * x * s.2.1 - 2 * ((i : α) - 1) * s.1,
          2 * x * s.2.1 - 2 * ((i : α) - 1) * s.1))
      ((1 : α), 2 * x, (0 : α))).2.2

/-- Embedding of the triangular workspace `work` of
`hermitePolyCoef(int n, vector<double> *c)` (lib.cpp lines 222-267):
`hermiteCoefWork i j` is the value stored at `work[i + j*(n+1)]`, i.e. the
coefficient of `x^j` in `H_i`, computed in `long` (modelled by `ℤ`)
arithmetic.  Entries with `j > i` are never written and keep their zero
initialisation. -/
def hermiteCoefWork : ℕ → ℕ → ℤ
  | 0, 0 => 1
  | 0, _ + 1 => 0
  | 1, 1 => 2
  | 1, 0 => 0
  | 1, _ + 2 => 0
  | i + 2, 0 => -2 * (i + 1) * hermiteCoefWork i 0
  | i + 2, j + 1 =>
      if j + 1 ≤ i + 2 then
        2 * hermiteCoefWork (i + 1) j - 2 * (i + 1) * hermiteCoefWork i (j + 1)
      else 0

/-- The integer coefficient row extracted by `hermitePolyCoef` before the
final cast to `double` (lib.cpp lines 237-266), including the hard-coded
special cases for `n = 0` and `n = 1`. -/
def hermitePolyCoefZ (n : ℕ) : List ℤ :=
  if n = 0 then [1]
  else if n = 1 then [0, 2]
  else (List.range (n + 1)).map (fun j => hermiteCoefWork n j)

/-- The `double` coefficient vector written into `*c` by
`hermitePolyCoef` (lib.cpp lines 263-266): the integer row cast entrywise. -/
def hermitePolyCoefD (n : ℕ) : List α :=
  (hermitePolyCoefZ n).map (fun z => (z : α))

/-- Buffer semantics of `void hermitePolyCoef(int n, vector<double> *c)`:
the first `n+1` entries of the caller's buffer `c` are overwritten with the
coefficients, any excess is untouched. -/
def hermitePolyCoefBuf (n : ℕ) (c : List α) : List α :=
  hermitePolyCoefD n ++ c.drop (n + 1)

/-- Embedding of `evalHermitePoly(SEXP xR, SEXP nR)` (lib.cpp lines
315-345): the three branches compare `n.size()` with `x.size()` and loop
over indices of the selected vector; `v.getD i 0` models the in-bounds
element access `v[i]`. -/
def evalHermitePoly (x : List α) (n : List ℤ) : List α :=
  if n.length = x.length then
    (List.range x.length).map (fun i => hermitePoly (x.getD i 0) (n.getD i 0))
  else if n.length < x.length then
    (List.range x.length).map (fun i => hermitePoly (x.getD i 0) (n.getD 0 0))
  else
    (List.range n.length).map (fun i => hermitePoly (x.getD 0 0) (n.getD i 0))

/-- Embedding of the companion-matrix construction inside
`findPolyRoots(const vector<double> &c, int n, vector<double> *r)`
(lib.cpp lines 147-161): a flat column-major `n*n` array `C`, zero
initialised, then `C[i + n*(i-1)] = 1` for `i = 1..n-1` (subdiagonal) and
`C[i + n*(n-1)] = -c[i]/c[n]` for `i = 0..n-1` (last column). -/
def companionMatrix (c : List α) (n : ℕ) : List α :=
  let C0 := List.replicate (n * n) (0 : α)
  let C1 := (List.range' 1 (n - 1)).foldl
    (fun C i => C.set (i + n * (i - 1)) 1) C0
  (List.range n).foldl
    (fun C i => C.set (i + n * (n - 1)) (-(c.getD i 0) / c.getD n 0)) C1

/-- Instrumentation of the divisions performed by the loop at lib.cpp
lines 159-161: the loop body evaluates `-c[i] / c[n]` once for each
`i = 0..n-1`, with divisor `c[n]` every time and no zero check. -/
def companionDivisors (c : List α) (n : ℕ) : List α :=
  (List.range n).map (fun _ => c.getD n 0)

/-- Record of the arguments the code passes to the external LAPACK routine
`dgeev` (lib.cpp lines 175-202): both job flags are `'N'` (eigenvalues
only, no eigenvectors), the matrix is the companion matrix, the dimension
is the degree. -/
structure DgeevCall (β : Type) where
  jobvl : Char
  jobvr : Char
  dim : ℕ
  a : List β

/-- The `dgeev` call issued by `findPolyRoots` for coefficients `c` and
degree `n`. -/
def findPolyRootsDgeevCall (c : List α) (n : ℕ) : DgeevCall α :=
  { jobvl := 'N', jobvr := 'N', dim := n, a := companionMatrix c n }

/-- Embedding of `findPolyRoots(const vector<double>&, int, vector<double>*)`
(lib.cpp lines 133-203).  The external solver `eig` models `dgeev`: given
the flat matrix and its dimension it returns the real and imaginary parts
of the eigenvalues.  `dgeev` writes `n` real parts into the caller's buffer
`r`; entries of `r` beyond index `n-1` are untouched, and the imaginary
parts (`valI`) are discarded.  The `INFO` status it reports is never
inspected by the source. -/
def findPolyRoots (eig : List α → ℕ → List α × List α) (c : List α) (n : ℕ)
    (r : List α) : List α :=
  let wr := (eig (companionMatrix c n) n).1
  wr ++ r.drop wr.length

/-- Embedding of the host-facing wrapper `SEXP findPolyRoots(SEXP cR)`
(lib.cpp lines 205-220): it allocates the zero-initialised result vector
`roots` of length `n-1` (`n` the length of the input), copies it into a
temporary `std::vector` via `Rcpp::as`, runs the computation on that copy,
and returns the original `roots`. -/
def findPolyRootsSEXP (eig : List α → ℕ → List α × List α) (c : List α) :
    List α :=
  let n := c.length
  let roots := List.replicate (n - 1) (0 : α)
  let r := roots
  let _r2 := findPolyRoots eig c (n - 1) r
  roots

/-- Embedding of the host-facing wrapper `SEXP hermitePolyCoef(SEXP nR)`
(lib.cpp lines 269-283): same copy-then-discard pattern as
`findPolyRootsSEXP`, on a zero vector of length `n+1`. -/
def hermitePolyCoefSEXP (n : ℕ) : List α :=
  let coef := List.replicate (n + 1) (0 : α)
  let c := coef
  let _c2 := hermitePolyCoefBuf n c
  coef

/-- Embedding of `buildHermiteJacobi(int n, vector<double> *D, vector<double> *E)`
(lib.cpp lines 6-38), acting on the caller's buffers: `D[i] = 0` for
`i = 0..n-1` and `E[i] = sqrt((i+1)/2)` for `i = 0..n-2`. -/
def buildHermiteJacobi (sqrt : α → α) (n : ℕ) (D E : List α) :
    List α × List α :=
  ((List.range n).foldl (fun d i => d.set i 0) D,
   (List.range (n - 1)).foldl
     (fun e i => e.set i (sqrt (((i : α) + 1) / 2))) E)

/-- The buffers `D`, `E` after `gaussHermiteDataGolubWelsch` allocates them
as `vector<double> D(n), E(n)` (both length `n`, zero initialised,
lib.cpp line 392) and calls `buildHermiteJacobi` on them. -/
def golubWelschBuffers (sqrt : α → α) (n : ℕ) : List α × List α :=
  buildHermiteJacobi sqrt n (List.replicate n (0 : α)) (List.replicate n (0 : α))

/-- Record of the arguments `quadInfoGolubWelsch` passes to the external
LAPACK routine `dstevx` and of the sizes it allocates (lib.cpp lines
77-109).  `mmax0` stands for the value `ceil(pow(2.0, 1.8177530512018800 +
0.5022347758669726*log2(n)))` computed at line 92, before the `+ 100`
safety margin of line 96. -/
structure DstevxCall (β : Type) where
  jobz : Char
  range : Char
  n : ℕ
  vl : β
  vu : β
  il : ℤ
  iu : ℤ
  abstol : β
  wsize : ℕ
  mmax : ℕ
  zsize : ℕ
  worksize : ℕ
  iworksize : ℕ
  ifailsize : ℕ

/-- The `dstevx` call set up by `quadInfoGolubWelsch` for order `n`. -/
def quadInfoDstevxCall (n : ℕ) (mmax0 : ℕ) (sqeps : α) : DstevxCall α :=
  { jobz := 'V', range := 'V', n := n, vl := -4, vu := 4, il := 0, iu := 1,
    abstol := sqeps, wsize := n, mmax := mmax0 + 100,
    zsize := (mmax0 + 100) * n, worksize := 5 * n, iworksize := 5 * n,
    ifailsize := n }

/-- Embedding of the node/weight assembly loop of `quadInfoGolubWelsch`
(lib.cpp lines 113-130).  The external solver `dstevx` has returned `M`
eigenvalues `W i` and eigenvectors stored column-major in `Z` with leading
dimension `n` (so `Z (i*n)` is the first entry of the `i`-th eigenvector).
For each `i < M` the candidate weight `mu0 * Z[i*n] * Z[i*n]` is computed;
pairs with weight `< sqeps` are skipped (`continue`), the rest are written
out in order.  `D` and `E` are the (destroyed) tridiagonal buffers. -/
def quadStep (n : ℕ) (mu0 sqeps : α) (W Z : ℕ → α)
    (xw : List α × List α) (i : ℕ) : List α × List α :=
  let wv := mu0 * Z (i * n) * Z (i * n)
  if wv < sqeps then xw else (xw.1 ++ [W i], xw.2 ++ [wv])

def quadInfoGolubWelsch (n : ℕ) (D E : List α) (mu0 sqeps : α) (M : ℕ)
    (W Z : ℕ → α) : List α × List α :=
  (List.range M).foldl (quadStep n mu0 sqeps W Z) ([], [])

/-- Embedding of `gaussHermiteDataGolubWelsch(int n, vector<double> *x,
vector<double> *w)` (lib.cpp lines 380-400): build the Jacobi-similar
buffers, set `mu0 = sqrt(M_PI)`, run `quadInfoGolubWelsch`, and return the
status code `0` unconditionally.  `M`, `W`, `Z` and `INFO` are the outputs
of the external `dstevx` call; the source never reads `INFO`, and the
model accordingly ignores it. -/
def gaussHermiteDataGolubWelsch (sqrt : α → α) (pi sqeps : α) (n : ℕ)
    (M : ℕ) (W Z : ℕ → α) (INFO : ℤ) : ℤ × List α × List α :=
  let DE := golubWelschBuffers sqrt n
  let mu0 := sqrt pi
  let _ := INFO
  (0, quadInfoGolubWelsch n DE.1 DE.2 mu0 sqeps M W Z)

/-- Embedding of `gaussHermiteDataDirect(int n, vector<double> *x,
vector<double> *w)` (lib.cpp lines 347-378): Hermite coefficients, roots
via the companion matrix, then the log-domain weight formula
`(n-1)*log2 + lgamma(n+1) + 0.5*log(pi) - 2*log(n) - 2*log(|H_{n-1}(x_i)|)`
exponentiated.  `x0`, `w0` are the caller's size-`n` buffers; entries of
`w0` beyond `n-1` are untouched.  Returns status `0` unconditionally. -/
def gaussHermiteDataDirect (eig : List α → ℕ → List α × List α)
    (exp log lgam : α → α) (pi : α) (n : ℕ) (x0 w0 : List α) :
    ℤ × List α × List α :=
  let coef := hermitePolyCoefD (α := α) n
  let x := findPolyRoots eig coef n x0
  let lg2 := log 2
  let logsqrtpi := (1 / 2 : α) * log pi
  let w := (List.range n).map (fun i =>
    exp (((n : α) - 1) * lg2 + lgam ((n : α) + 1) + logsqrtpi
      - 2 * log (n : α) - 2 * log |hermitePoly (x.getD i 0) ((n : ℤ) - 1)|))
    ++ w0.drop n
  (0, x, w)

end Defs

section ListHelpers

variable {β : Type}

lemma getD_set_ne (l : List β) (d : β) {i j : ℕ} (a : β) (h : i ≠ j) :
    (l.set i a).getD j d = l.getD j d := by
  simp [List.getD_eq_getElem?_getD, List.getElem?_set_ne h]

lemma getD_set_self (l : List β) (d : β) {i : ℕ} (a : β) (h : i < l.length) :
    (l.set i a).getD i d = a := by
  simp [List.getD_eq_getElem?_getD, List.getElem?_set_self, h]

lemma getD_replicate {z : β} {m k : ℕ} :
    (List.replicate m z).getD k z = z := by
  simp only [List.getD_eq_getElem?_getD, List.getElem?_replicate]
  split <;> simp

lemma foldlSet_length (f : ℕ → ℕ) (g : ℕ → β) :
    ∀ (L : List ℕ) (C : List β),
      (L.foldl (fun A i => A.set (f i) (g i)) C).length = C.length := by
  intro L
  induction L with
  | nil => intro C; rfl
  | cons h t ih =>
      intro C
      rw [List.foldl_cons, ih _, List.length_set]

lemma foldlSet_getD_of_ne (f : ℕ → ℕ) (g : ℕ → β) (d : β) :
    ∀ (L : List ℕ) (C : List β) (k : ℕ), (∀ i ∈ L, f i ≠ k) →
      (L.foldl (fun A i => A.set (f i) (g i)) C).getD k d = C.getD k d := by
  intro L
  induction L with
  | nil => intro C k _; rfl
  | cons h t ih =>
      intro C k hk
      rw [List.foldl_cons, ih _ _ (fun i hi => hk i (List.mem_cons_of_mem _ hi)),
        getD_set_ne _ _ _ (hk h (List.mem_cons_self _ _))]

lemma foldlSet_getD_unique (f : ℕ → ℕ) (g : ℕ → β) (d : β) :
    ∀ (L : List ℕ) (C : List β) (k i0 : ℕ), i0 ∈ L → f i0 = k →
      (∀ i ∈ L, f i = k → i = i0) → k < C.length →
      (L.foldl (fun A i => A.set (f i) (g i)) C).getD k d = g i0 := by
  intro L
  induction L with
  | nil => intro C k i0 hmem; exact absurd hmem (List.not_mem_nil _)
  | cons h t ih =>
      intro C k i0 hmem hf huniq hk
      rw [List.foldl_cons]
      by_cases hh : h = i0
      · subst hh
        by_cases hmem' : h ∈ t
        · exact ih _ _ _ hmem' hf
            (fun i hi hfi => huniq i (List.mem_cons_of_mem _ hi) hfi)
            (by rwa [List.length_set])
        · have hne : ∀ i ∈ t, f i ≠ k := by
            intro i hi hfi
            exact hmem' ((huniq i (List.mem_cons_of_mem _ hi) hfi) ▸ hi)
          rw [foldlSet_getD_of_ne f g d t _ _ hne, hf, getD_set_self _ _ _ hk]
      · have hfh : f h ≠ k := fun hfh => hh (huniq h (List.mem_cons_self _ _) hfh)
        have hmem' : i0 ∈ t := by
          rcases List.mem_cons.mp hmem with h1 | h1
          · exact absurd h1.symm hh
          · exact h1
        exact ih _ _ _ hmem' hf
          (fun i hi hfi => huniq i (List.mem_cons_of_mem _ hi) hfi)
          (by rwa [List.length_set])

lemma getD_range_map (f : ℕ → β) (d : β) {L i : ℕ} (h : i < L) :
    ((List.range L).map f).getD i d = f i := by
  rw [List.getD_eq_getElem _ _ (by simpa using h)]
  simp

lemma range_map_getD_eq_map {γ : Type} (f : β → γ) (l : List β) (d : β) :
    (List.range l.length).map (fun i => f (l.getD i d)) = l.map f := by
  apply List.ext_getElem
  · simp
  · intro i h1 h2
    simp only [List.getElem_map, List.getElem_range]
    rw [List.getD_eq_getElem l d (by simpa using h2)]

end ListHelpers

section Helpers

variable {α : Type} [LinearOrderedField α]

lemma addMul_inj {n a b u v : ℕ} (ha : a < n) (hb : b < n)
    (h : a + n * u = b + n * v) : a = b ∧ u = v := by
  have hn : 0 < n := lt_of_le_of_lt (Nat.zero_le _) ha
  have hab : a = b := by
    have h1 : (a + n * u) % n = a := by
      rw [Nat.add_mul_mod_self_left, Nat.mod_eq_of_lt ha]
    have h2 : (b + n * v) % n = b := by
      rw [Nat.add_mul_mod_self_left, Nat.mod_eq_of_lt hb]
    rw [← h1, h, h2]
  refine ⟨hab, ?_⟩
  subst hab
  exact Nat.eq_of_mul_eq_mul_left hn (Nat.add_left_cancel h)

lemma companionMatrix_length (c : List α) (n : ℕ) :
    (companionMatrix c n).length = n * n := by
  unfold companionMatrix
  rw [foldlSet_length (fun i => i + n * (n - 1))
    (fun i => -(c.getD i 0) / c.getD n 0)]
  rw [foldlSet_length (fun i => i + n * (i - 1)) (fun _ => (1 : α))]
  exact List.length_replicate _ _

lemma companionMatrix_getD (c : List α) (n : ℕ) {r j : ℕ} (hr : r < n)
    (hj : j < n) :
    (companionMatrix c n).getD (r + n * j) 0 =
      if j = n - 1 then -(c.getD r 0) / c.getD n 0
      else if r = j + 1 then 1 else 0 := by
  have hn : 0 < n := lt_of_le_of_lt (Nat.zero_le _) hr
  have hlt : r + n * j < n * n := by
    calc r + n * j < n + n * j := Nat.add_lt_add_right hr _
    _ = n * (j + 1) := by ring
    _ ≤ n * n := Nat.mul_le_mul_left n hj
  have hlen1 : ((List.range' 1 (n - 1)).foldl
      (fun C i => C.set (i + n * (i - 1)) (1 : α))
      (List.replicate (n * n) 0)).length = n * n := by
    rw [foldlSet_length (fun i => i + n * (i - 1)) (fun _ => (1 : α))]
    exact List.length_replicate _ _
  unfold companionMatrix
  by_cases hjn : j = n - 1
  · rw [if_pos hjn]
    refine foldlSet_getD_unique (fun i => i + n * (n - 1))
      (fun i => -(c.getD i 0) / c.getD n 0) 0 (List.range n) _ _ r
      (List.mem_range.mpr hr) (by rw [hjn]) ?_ (by rw [hlen1]; exact hlt)
    intro i hi hfi
    rw [hjn] at hfi
    exact (addMul_inj (List.mem_range.mp hi) hr hfi).1
  · rw [if_neg hjn]
    have hjlt : j < n - 1 := by omega
    have h2 : ∀ i ∈ List.range n, i + n * (n - 1) ≠ r + n * j := by
      intro i _ hfi
      have hub : r + n * j < n * (n - 1) := by
        calc r + n * j < n + n * j := Nat.add_lt_add_right hr _
        _ = n * (j + 1) := by ring
        _ ≤ n * (n - 1) := Nat.mul_le_mul_left n (by omega)
      have : n * (n - 1) ≤ i + n * (n - 1) := Nat.le_add_left _ _
      omega
    rw [foldlSet_getD_of_ne (fun i => i + n * (n - 1))
      (fun i => -(c.getD i 0) / c.getD n 0) 0 (List.range n) _ _ h2]
    by_cases hrj : r = j + 1
    · rw [if_pos hrj]
      refine foldlSet_getD_unique (fun i => i + n * (i - 1))
        (fun _ => (1 : α)) 0 (List.range' 1 (n - 1)) _ _ (j + 1)
        (List.mem_range'_1.mpr (by omega)) (by simp [hrj]) ?_
        (by rw [List.length_replicate]; exact hlt)
      intro i hi hfi
      have hi' := List.mem_range'_1.mp hi
      have := addMul_inj (show i < n by omega) hr hfi
      omega
    · rw [if_neg hrj]
      have h3 : ∀ i ∈ List.range' 1 (n - 1), i + n * (i - 1) ≠ r + n * j := by
        intro i hi hfi
        have hi' := List.mem_range'_1.mp hi
        have := addMul_inj (show i < n by omega) hr hfi
        omega
      rw [foldlSet_getD_of_ne (fun i => i + n * (i - 1)) (fun _ => (1 : α))
        0 (List.range' 1 (n - 1)) _ _ h3]
      exact getD_replicate

lemma quadInfo_foldl (n : ℕ) (mu0 sqeps : α) (W Z : ℕ → α) :
    ∀ (L : List ℕ) (a b : List α),
      (L.foldl (quadStep n mu0 sqeps W Z) (a, b)) =
      (a ++ ((L.map (fun i => (W i, mu0 * Z (i * n) * Z (i * n)))).filter
          (fun p => decide (sqeps ≤ p.2))).map Prod.fst,
       b ++ ((L.map (fun i => (W i, mu0 * Z (i * n) * Z (i * n)))).filter
          (fun p => decide (sqeps ≤ p.2))).map Prod.snd) := by
  intro L
  induction L with
  | nil => intro a b; simp
  | cons i t ih =>
      intro a b
      rw [List.foldl_cons]
      by_cases hw : mu0 * Z (i * n) * Z (i * n) < sqeps
      · have hstep : quadStep n mu0 sqeps W Z (a, b) i = (a, b) := by
          simp only [quadStep]
          rw [if_pos hw]
        have hd : decide (sqeps ≤ mu0 * Z (i * n) * Z (i * n)) = false := by
          simp [not_le.mpr hw]
        rw [hstep, ih a b, List.map_cons, List.filter_cons, hd]
        simp
      · have hstep : quadStep n mu0 sqeps W Z (a, b) i =
            (a ++ [W i], b ++ [mu0 * Z (i * n) * Z (i * n)]) := by
          simp only [quadStep]
          rw [if_neg hw]
        have hd : decide (sqeps ≤ mu0 * Z (i * n) * Z (i * n)) = true := by
          simp [not_lt.mp hw]
        rw [hstep, ih, List.map_cons, List.filter_cons, hd]
        simp

lemma quadInfoGolubWelsch_eq (n : ℕ) (D E : List α) (mu0 sqeps : α) (M : ℕ)
    (W Z : ℕ → α) :
    quadInfoGolubWelsch n D E mu0 sqeps M W Z =
      ((((List.range M).map
          (fun i => (W i, mu0 * Z (i * n) * Z (i * n)))).filter
            (fun p => decide (sqeps ≤ p.2))).map Prod.fst,
       (((List.range M).map
          (fun i => (W i, mu0 * Z (i * n) * Z (i * n)))).filter
            (fun p => decide (sqeps ≤ p.2))).map Prod.snd) := by
  unfold quadInfoGolubWelsch
  exact quadInfo_foldl n mu0 sqeps W Z (List.range M) [] []

lemma golubWelschBuffers_D (sqrt : α → α) (n : ℕ) :
    ((golubWelschBuffers sqrt n).1).length = n ∧
    ∀ j : ℕ, ((golubWelschBuffers sqrt n).1).getD j 0 = 0 := by
  unfold golubWelschBuffers buildHermiteJacobi
  constructor
  · rw [foldlSet_length (fun i => i) (fun _ => (0 : α))]
    exact List.length_replicate _ _
  · intro j
    by_cases hj : j < n
    · rw [foldlSet_getD_unique (fun i => i) (fun _ => (0 : α)) 0 (List.range n)
        _ j j (List.mem_range.mpr hj) rfl
        (by intro i _ h; simpa using h)
        (by rw [List.length_replicate]; exact hj)]
    · rw [foldlSet_getD_of_ne (fun i => i) (fun _ => (0 : α)) 0 (List.range n)
        _ j (by intro i hi h; simp at h; exact hj (h ▸ List.mem_range.mp hi))]
      exact getD_replicate

lemma golubWelschBuffers_E (sqrt : α → α) (n : ℕ) :
    ((golubWelschBuffers sqrt n).2).length = n ∧
    (∀ i : ℕ, i < n - 1 →
      ((golubWelschBuffers sqrt n).2).getD i 0 = sqrt (((i : α) + 1) / 2)) ∧
    ((golubWelschBuffers sqrt n).2).getD (n - 1) 0 = 0 := by
  unfold golubWelschBuffers buildHermiteJacobi
  refine ⟨?_, ?_, ?_⟩
  · rw [foldlSet_length (fun i => i) (fun i => sqrt (((i : α) + 1) / 2))]
    exact List.length_replicate _ _
  · intro i hi
    rw [foldlSet_getD_unique (fun i => i) (fun i => sqrt (((i : α) + 1) / 2))
      0 (List.range (n - 1)) _ i i (List.mem_range.mpr hi) rfl
      (by intro i' _ h; simpa using h)
      (by rw [List.length_replicate]; omega)]
  · rw [foldlSet_getD_of_ne (fun i => i) (fun i => sqrt (((i : α) + 1) / 2))
      0 (List.range (n - 1)) _ (n - 1)
      (by intro i hi h; simp at h; have := List.mem_range.mp hi; omega)]
    exact getD_replicate

end Helpers

lemma hermiteCoefWork_eq_zero : ∀ {m j : ℕ}, m < j → hermiteCoefWork m j = 0 := by
  intro m j h
  cases m with
  | zero =>
      cases j with
      | zero => omega
      | succ jj => rfl
  | succ m1 =>
      cases m1 with
      | zero =>
          cases j with
          | zero => omega
          | succ jj =>
              cases jj with
              | zero => omega
              | succ jk => rfl
      | succ m2 =>
          cases j with
          | zero => omega
          | succ jj =>
              simp only [hermiteCoefWork]
              rw [if_neg (by omega)]

lemma hermitePolyCoefZ_getD (m j : ℕ) :
    (hermitePolyCoefZ m).getD j 0 = hermiteCoefWork m j := by
  unfold hermitePolyCoefZ
  by_cases h0 : m = 0
  · subst h0
    rw [if_pos rfl]
    cases j with
    | zero => rfl
    | succ jj =>
        rw [List.getD_eq_default _ _ (by simp)]
        exact (hermiteCoefWork_eq_zero (by omega)).symm
  · rw [if_neg h0]
    by_cases h1 : m = 1
    · subst h1
      rw [if_pos rfl]
      match j with
      | 0 => rfl
      | 1 => rfl
      | jj + 2 =>
          rw [List.getD_eq_default _ _ (by simp)]
          exact (hermiteCoefWork_eq_zero (by omega)).symm
    · rw [if_neg h1]
      by_cases hj : j < m + 1
      · exact getD_range_map _ 0 hj
      · rw [List.getD_eq_default _ _ (by simp; omega)]
        exact (hermiteCoefWork_eq_zero (by omega)).symm

/-- Claim C4: for every input, the host-facing wrappers
`findPolyRoots(SEXP)` and `hermitePolyCoef(SEXP)` return a vector of the
stated length (`n-1`, resp. `n+1`) whose entries are all zero: each copies
its freshly allocated zero-initialised result into a temporary via
`Rcpp::as`, computes on that discarded copy, and returns the untouched
original. -/
theorem claim_C4_wrappers_return_zeros {α : Type} [LinearOrderedField α]
    (eig : List α → ℕ → List α × List α) (c : List α) (n : ℕ) :
    findPolyRootsSEXP eig c = List.replicate (c.length - 1) (0 : α) ∧
    (findPolyRootsSEXP eig c).length = c.length - 1 ∧
    (∀ v ∈ findPolyRootsSEXP eig c, v = 0) ∧
    hermitePolyCoefSEXP (α := α) n = List.replicate (n + 1) (0 : α) ∧
    (hermitePolyCoefSEXP (α := α) n).length = n + 1 ∧
    (∀ v ∈ hermitePolyCoefSEXP (α := α) n, v = 0) := by
  refine ⟨rfl, by simp [findPolyRootsSEXP], ?_, rfl,
    by simp [hermitePolyCoefSEXP], ?_⟩
  · intro v hv
    exact List.eq_of_mem_replicate hv
  · intro v hv
    exact List.eq_of_mem_replicate hv

/-- Claim C6: for every non-negative `n`, `hermitePolyCoef(n)` fills a
coefficient vector of length `n+1` according to the two-index recurrence
with bases `H0 = [1]`, `H1 = [0,2]`, and reproduces the closed forms for
`n = 0..4`. -/
theorem claim_C6_hermitePolyCoef :
    (∀ n : ℕ, (hermitePolyCoefZ n).length = n + 1) ∧
    hermitePolyCoefZ 0 = [1] ∧
    hermitePolyCoefZ 1 = [0, 2] ∧
    (∀ i : ℕ, 2 ≤ i →
      (hermitePolyCoefZ i).getD 0 0 =
        -2 * ((i : ℤ) - 1) * (hermitePolyCoefZ (i - 2)).getD 0 0) ∧
    (∀ i j : ℕ, 2 ≤ i → 1 ≤ j → j ≤ i →
      (hermitePolyCoefZ i).getD j 0 =
        2 * (hermitePolyCoefZ (i - 1)).getD (j - 1) 0
          - 2 * ((i : ℤ) - 1) * (hermitePolyCoefZ (i - 2)).getD j 0) ∧
    hermitePolyCoefD (α := ℚ) 0 = [1] ∧
    hermitePolyCoefD (α := ℚ) 1 = [0, 2] ∧
    hermitePolyCoefD (α := ℚ) 2 = [-2, 0, 4] ∧
    hermitePolyCoefD (α := ℚ) 3 = [0, -12, 0, 8] ∧
    hermitePolyCoefD (α := ℚ) 4 = [12, 0, -48, 0, 16] := by
  refine ⟨?_, rfl, rfl, ?_, ?_, by decide, by decide, by decide, by decide,
    by decide⟩
  · intro n
    unfold hermitePolyCoefZ
    by_cases h0 : n = 0
    · subst h0; rfl
    · rw [if_neg h0]
      by_cases h1 : n = 1
      · subst h1; rfl
      · rw [if_neg h1]; simp
  · intro i hi
    obtain ⟨k, rfl⟩ : ∃ k, i = k + 2 := ⟨i - 2, by omega⟩
    rw [hermitePolyCoefZ_getD, hermitePolyCoefZ_getD]
    show hermiteCoefWork (k + 2) 0 = _
    simp only [hermiteCoefWork, Nat.add_sub_cancel]
    push_cast
    ring
  · intro i j hi hj hji
    obtain ⟨k, rfl⟩ : ∃ k, i = k + 2 := ⟨i - 2, by omega⟩
    obtain ⟨jj, rfl⟩ : ∃ jj, j = jj + 1 := ⟨j - 1, by omega⟩
    rw [hermitePolyCoefZ_getD, hermitePolyCoefZ_getD, hermitePolyCoefZ_getD]
    show hermiteCoefWork (k + 2) (jj + 1) = _
    simp only [hermiteCoefWork, Nat.add_sub_cancel]
    rw [if_pos (by omega)]
    push_cast
    ring

/-- Witness for C6: the general recurrence instantiated at `i = 4`,
`j = 2`. -/
theorem claim_C6_witness :
    (2 ≤ 4 ∧ 1 ≤ 2 ∧ 2 ≤ 4) ∧
    (hermitePolyCoefZ 4).getD 2 0 =
      2 * (hermitePolyCoefZ 3).getD 1 0
        - 2 * ((4 : ℤ) - 1) * (hermitePolyCoefZ 2).getD 2 0 :=
  ⟨⟨by decide, by decide, by decide⟩,
    claim_C6_hermitePolyCoef.2.2.2.2.1 4 2 (by decide) (by decide) (by decide)⟩

/-- Claim C9: the broadcast rule of `evalHermitePoly`: equal lengths give
pairwise evaluation; if `x` is longer, every `x[i]` is paired with `n[0]`;
otherwise every `n[i]` is paired with `x[0]`. -/
theorem claim_C9_evalHermitePoly_broadcast {α : Type} [LinearOrderedField α]
    (x : List α) (n : List ℤ) :
    (n.length = x.length →
      evalHermitePoly x n = (x.zip n).map (fun p => hermitePoly p.1 p.2)) ∧
    (n.length < x.length → n ≠ [] →
      evalHermitePoly x n = x.map (fun t => hermitePoly t (n.getD 0 0))) ∧
    (x.length < n.length → x ≠ [] →
      evalHermitePoly x n = n.map (fun m => hermitePoly (x.getD 0 0) m)) := by
  refine ⟨?_, ?_, ?_⟩
  · intro h
    unfold evalHermitePoly
    rw [if_pos h]
    apply List.ext_getElem
    · simp [h]
    · intro i h1 h2
      have hx : i < x.length := by simpa using h1
      have hn : i < n.length := by omega
      simp only [List.getElem_map, List.getElem_range, List.getElem_zip]
      rw [List.getD_eq_getElem x 0 hx, List.getD_eq_getElem n 0 hn]
  · intro h _
    unfold evalHermitePoly
    rw [if_neg (by omega), if_pos h]
    exact range_map_getD_eq_map (fun t => hermitePoly t (n.getD 0 0)) x 0
  · intro h _
    unfold evalHermitePoly
    rw [if_neg (by omega), if_neg (by omega)]
    exact range_map_getD_eq_map (fun m => hermitePoly (x.getD 0 0) m) n 0

/-- Witness for C9: `x = [0, 1]`, `n = [2]` takes the `x`-longer branch
and evaluates `H_2` at each point. -/
theorem claim_C9_witness :
    ((([2] : List ℤ).length < ([0, 1] : List ℚ).length ∧ ([2] : List ℤ) ≠ []) ∧
      evalHermitePoly ([0, 1] : List ℚ) ([2] : List ℤ) =
        ([0, 1] : List ℚ).map
          (fun t => hermitePoly t (([2] : List ℤ).getD 0 0))) ∧
    evalHermitePoly ([0, 1] : List ℚ) ([2] : List ℤ) = [-2, 2] :=
  ⟨⟨⟨by decide, by decide⟩,
    (claim_C9_evalHermitePoly_broadcast ([0, 1] : List ℚ) ([2] : List ℤ)).2.1
      (by decide) (by decide)⟩,
    by norm_num [evalHermitePoly, hermitePoly, List.range', List.range_succ,
      List.range_zero]⟩

/-- Claim C10: the companion-matrix loop divides each coefficient by the
leading coefficient `c[n]` with no zero check: the divisor used is `c[n]`
in every iteration regardless of its value; if `c[n] ≠ 0` no division by
zero occurs and every last-column entry is `-c[i]/c[n]`; if `c[n] = 0`
the loop performs a division by zero. -/
theorem claim_C10_unguarded_division {α : Type} [LinearOrderedField α]
    (c : List α) (n : ℕ) (hn : 0 < n) :
    companionDivisors c n = List.replicate n (c.getD n 0) ∧
    (c.getD n 0 ≠ 0 → (∀ d ∈ companionDivisors c n, d ≠ 0) ∧
      ∀ r : ℕ, r < n →
        (companionMatrix c n).getD (r + n * (n - 1)) 0 =
          -(c.getD r 0) / c.getD n 0) ∧
    (c.getD n 0 = 0 → (0 : α) ∈ companionDivisors c n) := by
  have hdiv : companionDivisors c n = List.replicate n (c.getD n 0) := by
    unfold companionDivisors
    rw [List.map_const', List.length_range]
  refine ⟨hdiv, fun hne => ⟨?_, ?_⟩, fun h0 => ?_⟩
  · intro d hd
    rw [hdiv] at hd
    rw [List.eq_of_mem_replicate hd]
    exact hne
  · intro r hr
    rw [companionMatrix_getD c n hr (by omega), if_pos rfl]
  · rw [hdiv, h0]
    exact List.mem_replicate.mpr ⟨by omega, rfl⟩

/-- Counterexample for C8: at order `n = 1` the off-diagonal buffer `E`
built and passed to the eigensolver by `gaussHermiteDataGolubWelsch` has
length `1` (it is allocated as `vector<double> E(n)`), not
`max(n-1, 0) = 0` as the claim states. -/
theorem claim_C8_counterexample :
    ((golubWelschBuffers (fun q : ℚ => q) 1).2).length ≠ max (1 - 1) 0 := by
  decide

/-- Claim C8 (amended): for every positive order `n`, the engine's
tridiagonal buffers satisfy `len(D) = n` with every diagonal entry zero,
and `len(E) = n` (as allocated, not `max(n-1,0)`) with
`E[i] = sqrt((i+1)/2)` for `i = 0..n-2` and the trailing entry `E[n-1]`
left at its zero initialisation; the eigensolver reads only the first
`n-1` entries of `E`. -/
theorem claim_C8_amended {α : Type} [LinearOrderedField α] (sqrt : α → α)
    (n : ℕ) (hn : 0 < n) :
    ((golubWelschBuffers sqrt n).1).length = n ∧
    (∀ j : ℕ, ((golubWelschBuffers sqrt n).1).getD j 0 = 0) ∧
    ((golubWelschBuffers sqrt n).2).length = n ∧
    (∀ i : ℕ, i < n - 1 →
      ((golubWelschBuffers sqrt n).2).getD i 0 = sqrt (((i : α) + 1) / 2)) ∧
    ((golubWelschBuffers sqrt n).2).getD (n - 1) 0 = 0 :=
  ⟨(golubWelschBuffers_D sqrt n).1, (golubWelschBuffers_D sqrt n).2,
   (golubWelschBuffers_E sqrt n).1, (golubWelschBuffers_E sqrt n).2.1,
   (golubWelschBuffers_E sqrt n).2.2⟩

/-- Witness for C8 (amended claim) at `n = 2` over `ℚ` with `sqrt = id`. -/
theorem claim_C8_witness :
    0 < 2 ∧
    (((golubWelschBuffers (fun q : ℚ => q) 2).1).length = 2 ∧
      (∀ j : ℕ, ((golubWelschBuffers (fun q : ℚ => q) 2).1).getD j 0 = 0) ∧
      ((golubWelschBuffers (fun q : ℚ => q) 2).2).length = 2 ∧
      (∀ i : ℕ, i < 2 - 1 →
        ((golubWelschBuffers (fun q : ℚ => q) 2).2).getD i 0 =
          ((i : ℚ) + 1) / 2) ∧
      ((golubWelschBuffers (fun q : ℚ => q) 2).2).getD (2 - 1) 0 = 0) :=
  ⟨by decide, claim_C8_amended (fun q : ℚ => q) 2 (by decide)⟩

/-- Claim C7: for coefficients `c` of length `degree+1` with nonzero
leading coefficient, `findPolyRoots` builds the `degree x degree`
companion matrix (subdiagonal ones, last column `-c[i]/c[degree]`, all
else zero), calls `dgeev` with both job flags `'N'` (eigenvalues only),
and returns exactly `degree` roots: the real parts of the eigenvalues,
the imaginary parts being discarded. -/
theorem claim_C7_findPolyRoots_companion {α : Type} [LinearOrderedField α]
    (eig : List α → ℕ → List α × List α) (c : List α) (n : ℕ) (r0 : List α)
    (hdeg : c.length = n + 1) (hlead : c.getD n 0 ≠ 0)
    (heig : ∀ (A : List α) (m : ℕ), ((eig A m).1).length = m)
    (hr : r0.length = n) :
    (companionMatrix c n).length = n * n ∧
    (∀ r j : ℕ, r < n → j < n →
      (companionMatrix c n).getD (r + n * j) 0 =
        if j = n - 1 then -(c.getD r 0) / c.getD n 0
        else if r = j + 1 then 1 else 0) ∧
    (findPolyRootsDgeevCall c n).jobvl = 'N' ∧
    (findPolyRootsDgeevCall c n).jobvr = 'N' ∧
    findPolyRoots eig c n r0 = (eig (companionMatrix c n) n).1 ∧
    (findPolyRoots eig c n r0).length = n := by
  have hdrop : r0.drop n = [] := by
    rw [← hr]
    exact List.drop_length r0
  have hfind : findPolyRoots eig c n r0 = (eig (companionMatrix c n) n).1 := by
    show (eig (companionMatrix c n) n).1 ++
        r0.drop ((eig (companionMatrix c n) n).1).length =
      (eig (companionMatrix c n) n).1
    rw [heig, hdrop, List.append_nil]
  exact ⟨companionMatrix_length c n,
    fun r j hrn hjn => companionMatrix_getD c n hrn hjn, rfl, rfl, hfind,
    by rw [hfind, heig]⟩

/-- Witness for C7: degree `1`, coefficients `[1, 1]`, a stub eigensolver
returning `m` zero eigenvalues. -/
theorem claim_C7_witness :
    (([1, 1] : List ℚ).length = 1 + 1 ∧ ([1, 1] : List ℚ).getD 1 0 ≠ 0 ∧
      ([(0 : ℚ)] : List ℚ).length = 1) ∧
    ((companionMatrix ([1, 1] : List ℚ) 1).length = 1 * 1 ∧
      (∀ r j : ℕ, r < 1 → j < 1 →
        (companionMatrix ([1, 1] : List ℚ) 1).getD (r + 1 * j) 0 =
          if j = 1 - 1 then
            -(([1, 1] : List ℚ).getD r 0) / ([1, 1] : List ℚ).getD 1 0
          else if r = j + 1 then 1 else 0) ∧
      (findPolyRootsDgeevCall ([1, 1] : List ℚ) 1).jobvl = 'N' ∧
      (findPolyRootsDgeevCall ([1, 1] : List ℚ) 1).jobvr = 'N' ∧
      findPolyRoots (fun _ m => (List.replicate m (0 : ℚ), List.replicate m 0))
        ([1, 1] : List ℚ) 1 [(0 : ℚ)] =
        ((fun (_ : List ℚ) (m : ℕ) =>
          (List.replicate m (0 : ℚ), List.replicate m 0))
            (companionMatrix ([1, 1] : List ℚ) 1) 1).1 ∧
      (findPolyRoots (fun _ m => (List.replicate m (0 : ℚ), List.replicate m 0))
        ([1, 1] : List ℚ) 1 [(0 : ℚ)]).length = 1) :=
  ⟨⟨by decide, by decide, by decide⟩,
    claim_C7_findPolyRoots_companion
      (fun _ m => (List.replicate m (0 : ℚ), List.replicate m 0))
      ([1, 1] : List ℚ) 1 [(0 : ℚ)] (by decide) (by decide)
      (fun A m => by simp) (by decide)⟩

/-- Claim C5: for every positive order `n` (given the size-`n` buffers the
contract requires and the `dgeev` guarantee of `n` eigenvalues),
`gaussHermiteDataDirect` returns exactly `n` nodes — the computed roots of
the degree-`n` Hermite polynomial — and exactly `n` weights, each equal to
`exp((n-1)·log 2 + lgamma(n+1) + ½·log π − 2·log n − 2·log |H_{n-1}(x_i)|)`
with `H_{n-1}` evaluated by `hermitePoly`. -/
theorem claim_C5_gaussHermiteDataDirect {α : Type} [LinearOrderedField α]
    (eig : List α → ℕ → List α × List α) (exp log lgam : α → α) (pi : α)
    (n : ℕ) (x0 w0 : List α) (hn : 0 < n)
    (heig : ∀ (A : List α) (m : ℕ), ((eig A m).1).length = m)
    (hx : x0.length = n) (hw : w0.length = n) :
    (gaussHermiteDataDirect eig exp log lgam pi n x0 w0).2.1 =
      (eig (companionMatrix (hermitePolyCoefD (α := α) n) n) n).1 ∧
    ((gaussHermiteDataDirect eig exp log lgam pi n x0 w0).2.1).length = n ∧
    ((gaussHermiteDataDirect eig exp log lgam pi n x0 w0).2.2).length = n ∧
    (∀ i : ℕ, i < n →
      ((gaussHermiteDataDirect eig exp log lgam pi n x0 w0).2.2).getD i 0 =
        exp (((n : α) - 1) * log 2 + lgam ((n : α) + 1) + (1 / 2 : α) * log pi
          - 2 * log (n : α)
          - 2 * log |hermitePoly
              (((gaussHermiteDataDirect eig exp log lgam pi n x0 w0).2.1).getD
                i 0)
              ((n : ℤ) - 1)|)) := by
  have hdropx : x0.drop n = [] := by
    rw [← hx]
    exact List.drop_length x0
  have hdropw : w0.drop n = [] := by
    rw [← hw]
    exact List.drop_length w0
  have hfind : findPolyRoots eig (hermitePolyCoefD (α := α) n) n x0 =
      (eig (companionMatrix (hermitePolyCoefD (α := α) n) n) n).1 := by
    show (eig (companionMatrix (hermitePolyCoefD (α := α) n) n) n).1 ++
        x0.drop
          ((eig (companionMatrix (hermitePolyCoefD (α := α) n) n) n).1).length =
      (eig (companionMatrix (hermitePolyCoefD (α := α) n) n) n).1
    rw [heig, hdropx, List.append_nil]
  refine ⟨hfind, ?_, ?_, ?_⟩
  · show (findPolyRoots eig (hermitePolyCoefD (α := α) n) n x0).length = n
    rw [hfind, heig]
  · show ((List.range n).map _ ++ w0.drop n).length = n
    rw [hdropw, List.append_nil, List.length_map, List.length_range]
  · intro i hi
    show ((List.range n).map _ ++ w0.drop n).getD i 0 = _
    rw [hdropw, List.append_nil]
    exact getD_range_map _ 0 hi

/-- Witness for C5: order `n = 1` over `ℚ` with identity stand-ins for the
transcendental functions and a stub eigensolver. -/
theorem claim_C5_witness :
    (0 < 1 ∧ ([(0 : ℚ)] : List ℚ).length = 1) ∧
    ((gaussHermiteDataDirect
        (fun _ m => (List.replicate m (0 : ℚ), List.replicate m 0))
        (fun q => q) (fun q => q) (fun q => q) 1 1 [(0 : ℚ)] [(0 : ℚ)]).2.1 =
      ((fun (_ : List ℚ) (m : ℕ) =>
        (List.replicate m (0 : ℚ), List.replicate m 0))
          (companionMatrix (hermitePolyCoefD (α := ℚ) 1) 1) 1).1 ∧
    ((gaussHermiteDataDirect
        (fun _ m => (List.replicate m (0 : ℚ), List.replicate m 0))
        (fun q => q) (fun q => q) (fun q => q) 1 1
        [(0 : ℚ)] [(0 : ℚ)]).2.1).length = 1 ∧
    ((gaussHermiteDataDirect
        (fun _ m => (List.replicate m (0 : ℚ), List.replicate m 0))
        (fun q => q) (fun q => q) (fun q => q) 1 1
        [(0 : ℚ)] [(0 : ℚ)]).2.2).length = 1 ∧
    (∀ i : ℕ, i < 1 →
      ((gaussHermiteDataDirect
          (fun _ m => (List.replicate m (0 : ℚ), List.replicate m 0))
          (fun q => q) (fun q => q) (fun q => q) 1 1
          [(0 : ℚ)] [(0 : ℚ)]).2.2).getD i 0 =
        (fun q => q)
          ((((1 : ℕ) : ℚ) - 1) * (fun q => q) 2
            + (fun q => q) (((1 : ℕ) : ℚ) + 1)
            + (1 / 2 : ℚ) * (fun q => q) 1 - 2 * (fun q => q) ((1 : ℕ) : ℚ)
            - 2 * (fun q => q)
                |hermitePoly
                  (((gaussHermiteDataDirect
                      (fun _ m => (List.replicate m (0 : ℚ), List.replicate m 0))
                      (fun q => q) (fun q => q) (fun q => q) 1 1
                      [(0 : ℚ)] [(0 : ℚ)]).2.1).getD i 0)
                  (((1 : ℕ) : ℤ) - 1)|))) :=
  ⟨⟨by decide, by decide⟩,
    claim_C5_gaussHermiteDataDirect
      (fun _ m => (List.replicate m (0 : ℚ), List.replicate m 0))
      (fun q => q) (fun q => q) (fun q => q) 1 1 [(0 : ℚ)] [(0 : ℚ)]
      (by decide) (fun A m => by simp) (by decide) (by decide)⟩

/-- Claim C1: for a positive order `n` (and the dstevx guarantee
`M ≤ n`), the Golub-Welsch engine called with `mu0 = sqrt(pi)` returns
node and weight sequences of equal length at most `n`; the retained
(node, weight) pairs are exactly those `(W i, sqrt(pi) * Z[i*n]^2)` with
weight not below the threshold, in eigensolver order, so each returned
weight equals `sqrt(pi)` times the squared first eigenvector entry and is
at least the threshold `sqeps = sqrt(machine epsilon)`. -/
theorem claim_C1_golubWelsch_rule {α : Type} [LinearOrderedField α]
    (sqrt : α → α) (pi sqeps : α) (n M : ℕ) (W Z : ℕ → α) (INFO : ℤ)
    (hn : 0 < n) (hM : M ≤ n) :
    (((gaussHermiteDataGolubWelsch sqrt pi sqeps n M W Z INFO).2.1).zip
        ((gaussHermiteDataGolubWelsch sqrt pi sqeps n M W Z INFO).2.2) =
      ((List.range M).map
          (fun i => (W i, sqrt pi * Z (i * n) * Z (i * n)))).filter
        (fun p => decide (sqeps ≤ p.2))) ∧
    ((gaussHermiteDataGolubWelsch sqrt pi sqeps n M W Z INFO).2.1).length =
      ((gaussHermiteDataGolubWelsch sqrt pi sqeps n M W Z INFO).2.2).length ∧
    ((gaussHermiteDataGolubWelsch sqrt pi sqeps n M W Z INFO).2.1).length ≤ n ∧
    (∀ j : ℕ,
      j < ((gaussHermiteDataGolubWelsch sqrt pi sqeps n M W Z INFO).2.2).length →
      sqeps ≤
        ((gaussHermiteDataGolubWelsch sqrt pi sqeps n M W Z INFO).2.2).getD
          j 0 ∧
      ∃ i : ℕ, i < M ∧
        ((gaussHermiteDataGolubWelsch sqrt pi sqeps n M W Z INFO).2.2).getD
            j 0 = sqrt pi * Z (i * n) * Z (i * n) ∧
        ((gaussHermiteDataGolubWelsch sqrt pi sqeps n M W Z INFO).2.1).getD
            j 0 = W i) := by
  have hq1 : (gaussHermiteDataGolubWelsch sqrt pi sqeps n M W Z INFO).2.1 =
      (((List.range M).map
          (fun i => (W i, sqrt pi * Z (i * n) * Z (i * n)))).filter
        (fun p => decide (sqeps ≤ p.2))).map Prod.fst := by
    show (quadInfoGolubWelsch n (golubWelschBuffers sqrt n).1
      (golubWelschBuffers sqrt n).2 (sqrt pi) sqeps M W Z).1 = _
    rw [quadInfoGolubWelsch_eq]
  have hq2 : (gaussHermiteDataGolubWelsch sqrt pi sqeps n M W Z INFO).2.2 =
      (((List.range M).map
          (fun i => (W i, sqrt pi * Z (i * n) * Z (i * n)))).filter
        (fun p => decide (sqeps ≤ p.2))).map Prod.snd := by
    show (quadInfoGolubWelsch n (golubWelschBuffers sqrt n).1
      (golubWelschBuffers sqrt n).2 (sqrt pi) sqeps M W Z).2 = _
    rw [quadInfoGolubWelsch_eq]
  refine ⟨?_, ?_, ?_, ?_⟩
  · rw [hq1, hq2, List.zip_map']
    simp
  · rw [hq1, hq2, List.length_map, List.length_map]
  · rw [hq1, List.length_map]
    calc (((List.range M).map
        (fun i => (W i, sqrt pi * Z (i * n) * Z (i * n)))).filter
          (fun p => decide (sqeps ≤ p.2))).length
        ≤ ((List.range M).map
            (fun i => (W i, sqrt pi * Z (i * n) * Z (i * n)))).length :=
          List.length_filter_le _ _
      _ = M := by rw [List.length_map, List.length_range]
      _ ≤ n := hM
  · intro j hj
    rw [hq2, List.length_map] at hj
    have h2 : ((gaussHermiteDataGolubWelsch sqrt pi sqeps n M W Z INFO).2.2).getD
        j 0 = ((((List.range M).map
          (fun i => (W i, sqrt pi * Z (i * n) * Z (i * n)))).filter
            (fun p => decide (sqeps ≤ p.2))).get ⟨j, hj⟩).2 := by
      rw [hq2, List.getD_eq_getElem _ _ (by simpa using hj), List.getElem_map]
      rfl
    have h1 : ((gaussHermiteDataGolubWelsch sqrt pi sqeps n M W Z INFO).2.1).getD
        j 0 = ((((List.range M).map
          (fun i => (W i, sqrt pi * Z (i * n) * Z (i * n)))).filter
            (fun p => decide (sqeps ≤ p.2))).get ⟨j, hj⟩).1 := by
      rw [hq1, List.getD_eq_getElem _ _ (by simpa using hj), List.getElem_map]
      rfl
    have hmem := List.get_mem (((List.range M).map
      (fun i => (W i, sqrt pi * Z (i * n) * Z (i * n)))).filter
        (fun p => decide (sqeps ≤ p.2))) j hj
    obtain ⟨hmap, hple⟩ := List.mem_filter.mp hmem
    obtain ⟨i, hiM, hpe⟩ := List.mem_map.mp hmap
    refine ⟨?_, ⟨i, List.mem_range.mp hiM, ?_, ?_⟩⟩
    · rw [h2]
      exact of_decide_eq_true hple
    · rw [h2]
      exact (congrArg Prod.snd hpe).symm
    · rw [h1]
      exact (congrArg Prod.fst hpe).symm

/-- Witness for C1: order `n = 2`, two eigenpairs, both above threshold. -/
theorem claim_C1_witness :
    (0 < 2 ∧ 2 ≤ 2) ∧
    ((((gaussHermiteDataGolubWelsch (fun q : ℚ => q) 9 5 2 2 (fun i => (i : ℚ))
          (fun _ => 1) 0).2.1).zip
        ((gaussHermiteDataGolubWelsch (fun q : ℚ => q) 9 5 2 2 (fun i => (i : ℚ))
          (fun _ => 1) 0).2.2) =
      ((List.range 2).map
          (fun i => ((i : ℚ), (fun q : ℚ => q) 9 * (fun _ => (1 : ℚ)) (i * 2) *
            (fun _ => (1 : ℚ)) (i * 2)))).filter
        (fun p => decide ((5 : ℚ) ≤ p.2))) ∧
    ((gaussHermiteDataGolubWelsch (fun q : ℚ => q) 9 5 2 2 (fun i => (i : ℚ))
        (fun _ => 1) 0).2.1).length =
      ((gaussHermiteDataGolubWelsch (fun q : ℚ => q) 9 5 2 2 (fun i => (i : ℚ))
        (fun _ => 1) 0).2.2).length ∧
    ((gaussHermiteDataGolubWelsch (fun q : ℚ => q) 9 5 2 2 (fun i => (i : ℚ))
        (fun _ => 1) 0).2.1).length ≤ 2 ∧
    (∀ j : ℕ,
      j < ((gaussHermiteDataGolubWelsch (fun q : ℚ => q) 9 5 2 2
        (fun i => (i : ℚ)) (fun _ => 1) 0).2.2).length →
      (5 : ℚ) ≤ ((gaussHermiteDataGolubWelsch (fun q : ℚ => q) 9 5 2 2
        (fun i => (i : ℚ)) (fun _ => 1) 0).2.2).getD j 0 ∧
      ∃ i : ℕ, i < 2 ∧
        ((gaussHermiteDataGolubWelsch (fun q : ℚ => q) 9 5 2 2
          (fun i => (i : ℚ)) (fun _ => 1) 0).2.2).getD j 0 =
            (fun q : ℚ => q) 9 * (fun _ => (1 : ℚ)) (i * 2) *
              (fun _ => (1 : ℚ)) (i * 2) ∧
        ((gaussHermiteDataGolubWelsch (fun q : ℚ => q) 9 5 2 2
          (fun i => (i : ℚ)) (fun _ => 1) 0).2.1).getD j 0 = (i : ℚ))) :=
  ⟨⟨by decide, by decide⟩,
    claim_C1_golubWelsch_rule (fun q : ℚ => q) 9 5 2 2 (fun i => (i : ℚ))
      (fun _ => 1) 0 (by decide) (by decide)⟩

/-- Claim C3, as the code actually behaves: `quadInfoGolubWelsch` never
reads the dstevx `INFO` status and never compares `M` with `Mmax` — the
engine's result is invariant in `INFO`, and with a failing status
(`INFO = 1`) it still returns success code `0` with an assembled rule
instead of aborting. -/
theorem claim_C3_no_error_propagation :
    (∀ (sq : ℚ → ℚ) (p s : ℚ) (n M : ℕ) (W Z : ℕ → ℚ) (i1 i2 : ℤ),
      gaussHermiteDataGolubWelsch sq p s n M W Z i1 =
        gaussHermiteDataGolubWelsch sq p s n M W Z i2) ∧
    gaussHermiteDataGolubWelsch (fun q : ℚ => q) 4 1 1 1 (fun _ => 5)
      (fun _ => 1) 1 = (0, [5], [4]) := by
  constructor
  · intro sq p s n M W Z i1 i2
    rfl
  · norm_num [gaussHermiteDataGolubWelsch, golubWelschBuffers,
      buildHermiteJacobi, quadInfoGolubWelsch, quadStep, List.range_succ,
      List.range_zero]

/-- Claim C2: for every order `n`, the `dstevx` call built by
`quadInfoGolubWelsch` requests eigenvalues only inside the fixed window
`[-4, 4]` (`RANGE = 'V'`, never the full spectrum `'A'`) and allocates
eigenvector storage of exactly `Mmax * n` entries where
`Mmax = ceil(2^(1.8177530512018800 + 0.5022347758669726*log2 n)) + 100`
(source-precision constants). -/
theorem claim_C2_window_and_capacity (n : ℕ) (mmax0 : ℕ) (sqeps : ℝ)
    (hm : mmax0 = ⌈(2 : ℝ) ^ ((1.8177530512018800 : ℝ) +
      (0.5022347758669726 : ℝ) * Real.logb 2 (n : ℝ))⌉₊) :
    (quadInfoDstevxCall n mmax0 sqeps).range = 'V' ∧
    (quadInfoDstevxCall n mmax0 sqeps).range ≠ 'A' ∧
    (quadInfoDstevxCall n mmax0 sqeps).vl = (-4 : ℝ) ∧
    (quadInfoDstevxCall n mmax0 sqeps).vu = (4 : ℝ) ∧
    (quadInfoDstevxCall n mmax0 sqeps).mmax = mmax0 + 100 ∧
    (quadInfoDstevxCall n mmax0 sqeps).zsize =
      (⌈(2 : ℝ) ^ ((1.8177530512018800 : ℝ) +
        (0.5022347758669726 : ℝ) * Real.logb 2 (n : ℝ))⌉₊ + 100) * n := by
  subst hm
  exact ⟨rfl, by show ('V' : Char) ≠ 'A'; decide, rfl, rfl, rfl, rfl⟩

/-- Witness for C2: at `n = 1` the regression estimate is
`ceil(2^1.81775305120188) = 4`. -/
theorem claim_C2_witness :
    ((4 : ℕ) = ⌈(2 : ℝ) ^ ((1.8177530512018800 : ℝ) +
      (0.5022347758669726 : ℝ) * Real.logb 2 ((1 : ℕ) : ℝ))⌉₊) ∧
    ((quadInfoDstevxCall 1 4 (0 : ℝ)).range = 'V' ∧
      (quadInfoDstevxCall 1 4 (0 : ℝ)).range ≠ 'A' ∧
      (quadInfoDstevxCall 1 4 (0 : ℝ)).vl = (-4 : ℝ) ∧
      (quadInfoDstevxCall 1 4 (0 : ℝ)).vu = (4 : ℝ) ∧
      (quadInfoDstevxCall 1 4 (0 : ℝ)).mmax = 4 + 100 ∧
      (quadInfoDstevxCall 1 4 (0 : ℝ)).zsize =
        (⌈(2 : ℝ) ^ ((1.8177530512018800 : ℝ) +
          (0.5022347758669726 : ℝ) * Real.logb 2 ((1 : ℕ) : ℝ))⌉₊ + 100) * 1) := by
  have hexp : (1.8177530512018800 : ℝ) +
      (0.5022347758669726 : ℝ) * Real.logb 2 ((1 : ℕ) : ℝ) =
      (1.8177530512018800 : ℝ) := by
    rw [Nat.cast_one, Real.logb_one]
    ring
  have h4 : (2 : ℝ) ^ (2 : ℝ) = 4 := by norm_num
  have hle : (2 : ℝ) ^ (1.8177530512018800 : ℝ) ≤ 4 := by
    rw [← h4]
    exact (Real.rpow_le_rpow_left_iff (by norm_num)).mpr (by norm_num)
  have hy0 : (0 : ℝ) ≤ (2 : ℝ) ^ ((8 : ℝ) / 5) :=
    Real.rpow_nonneg (by norm_num) _
  have hp : ((2 : ℝ) ^ ((8 : ℝ) / 5)) ^ (5 : ℕ) = 256 := by
    rw [← Real.rpow_natCast ((2 : ℝ) ^ ((8 : ℝ) / 5)) 5,
      ← Real.rpow_mul (by norm_num : (0 : ℝ) ≤ 2)]
    norm_num
  have h3 : (3 : ℝ) < (2 : ℝ) ^ ((8 : ℝ) / 5) := by
    by_contra hcon
    push_neg at hcon
    have hpow : ((2 : ℝ) ^ ((8 : ℝ) / 5)) ^ (5 : ℕ) ≤ (3 : ℝ) ^ (5 : ℕ) :=
      pow_le_pow_left hy0 hcon 5
    rw [hp] at hpow
    norm_num at hpow
  have hgt : (3 : ℝ) < (2 : ℝ) ^ (1.8177530512018800 : ℝ) := by
    have h35 : (2 : ℝ) ^ ((8 : ℝ) / 5) ≤ (2 : ℝ) ^ (1.8177530512018800 : ℝ) :=
      (Real.rpow_le_rpow_left_iff (by norm_num)).mpr (by norm_num)
    linarith
  have hceil : ⌈(2 : ℝ) ^ ((1.8177530512018800 : ℝ) +
      (0.5022347758669726 : ℝ) * Real.logb 2 ((1 : ℕ) : ℝ))⌉₊ = 4 := by
    rw [hexp, Nat.ceil_eq_iff (by norm_num)]
    constructor
    · simpa using hgt
    · simpa using hle
  exact ⟨hceil.symm, claim_C2_window_and_capacity 1 4 0 hceil.symm⟩

/-- Witness for C10: `c = [1, 0]`, degree `n = 1` has leading coefficient
zero, so the single division performed is by zero. -/
theorem claim_C10_witness :
    (0 < 1 ∧ ([1, 0] : List ℚ).getD 1 0 = 0) ∧
    (0 : ℚ) ∈ companionDivisors ([1, 0] : List ℚ) 1 :=
  ⟨⟨by decide, by decide⟩,
    (claim_C10_unguarded_division ([1, 0] : List ℚ) 1 (by decide)).2.2
      (by decide)⟩
